import Mathlib

/-!
Verification of the feed assembly and pagination engine of the Quacker
terminal client (`src/Pond.cc`, `src/Quacker.cc`).

The development shallowly embeds the relevant C++ functions:

* `Pond::get_unique_user_id` (identifier allocation by gap scan),
* `Pond::_getTime` / `Pond::_getDate` (timestamp formatting via `strftime`),
* `Pond::getFeed` (the SQL feed query: joins, spam filter, ordering, and
  the rendered feed lines),
* `Quacker::processFeed` (windowed display of the feed),
* `Quacker::extractQuackID` and the selection validation of
  `Quacker::mainPage` case `'5'` (mapping an on-screen row number back to
  a stored quack identifier).

Machine integers (`int32_t`) are modelled as `Int` with explicit two's
complement wrap where overflow can actually occur; SQL TEXT columns are
Lean `String`s compared by code point (SQLite BINARY collation over
UTF-8 agrees with code-point order); SQL result sets are lists of row
structures, and the fixed join/filter conditions of each query are
applied to them literally.
-/

namespace Pond

/-! ### Identifier allocation: `Pond::get_unique_user_id`

The C++ routine walks the existing non-negative user ids in ascending
order, keeping a candidate `unique_id : int32_t` that starts at 1:
a row equal to the candidate bumps the candidate by one, a row strictly
greater stops the scan with `found = true`, any other row is skipped.
Afterwards, `if (!found && unique_id > INT32_MAX)` it restarts from `-1`
over the negative ids in descending order with the mirrored scan.
The increment `unique_id++` can overflow `int32_t`; that is undefined
behaviour in C++, and we model it as the two's complement wrap produced
by the usual implementations. -/

/-- Two's complement wrap of an integer into the `int32_t` range. -/
def wrap32 (n : Int) : Int := (n + 2 ^ 31) % 2 ^ 32 - 2 ^ 31

/-- The ascending scan over the rows of
`SELECT usr FROM users WHERE usr >= 0 ORDER BY usr ASC`
(first loop of `Pond::get_unique_user_id`): returns the final
`unique_id` together with the `found` flag. -/
def posScan : Int → List Int → Int × Bool
  | uid, [] => (uid, false)
  | uid, c :: rest =>
    if c = uid then posScan (wrap32 (uid + 1)) rest
    else if uid < c then (uid, true)
    else posScan uid rest

/-- The descending scan over the rows of
`SELECT usr FROM users WHERE usr < 0 ORDER BY usr DESC`
(second loop of `Pond::get_unique_user_id`). -/
def negScan : Int → List Int → Int
  | uid, [] => uid
  | uid, c :: rest =>
    if c = uid then negScan (wrap32 (uid - 1)) rest
    else if c < uid then uid
    else negScan uid rest

/-- `Pond::get_unique_user_id`, parameterized by the two query results:
`pos` is the list of stored non-negative ids in ascending order and `neg`
the list of stored negative ids in descending order.  The source
allocates into `unique_id` (an out-parameter) and returns `true` unless
a query fails; we return the allocated id. -/
def get_unique_user_id (pos neg : List Int) : Int :=
  let r := posScan 1 pos
  if r.2 = false ∧ 2 ^ 31 - 1 < r.1 then negScan (-1) neg else r.1

/-- Ascending run of consecutive integers `[a, a+1, ..., a+m-1]`, used to
describe a fully dense id range. -/
def intRange (a : Int) : Nat → List Int
  | 0 => []
  | m + 1 => a :: intRange (a + 1) m

/-- The property "`n` is the smallest non-negative integer not in `S`"
(the allocator contract exactly as the specification states it). -/
def IsLeastNonNegAbsent (n : Int) (S : List Int) : Prop :=
  0 ≤ n ∧ n ∉ S ∧ ∀ m : Int, 0 ≤ m → m ∉ S → n ≤ m

/-- The property "`n` is the smallest positive integer not in `S`"
(what the scan starting at candidate 1 actually produces). -/
def IsLeastPosAbsent (n : Int) (S : List Int) : Prop :=
  1 ≤ n ∧ n ∉ S ∧ ∀ m : Int, 1 ≤ m → m < n → m ∈ S

/-! ### Timestamp formatting: `Pond::_getTime` and `Pond::_getDate`

Both helpers allocate a buffer (`new char[9]` resp. `new char[11]`) but
then call `std::strftime(t, sizeof(t), ...)` where `t` is a `char*`, so
the maximum size handed to `strftime` is `sizeof(char*) = 8` on the
64-bit target, not the allocated 9 resp. 11 bytes.  Per the C standard,
`strftime` stores the formatted string (including its terminating null
byte) only when it fits within `maxsize` characters; otherwise it
returns 0 and the buffer contents are indeterminate.  We model that
contract as an `Option String` that is `none` on failure. -/

/-- Broken-down GMT time as produced by `std::gmtime`. -/
structure Tm where
  year : Nat
  month : Nat
  day : Nat
  hour : Nat
  minute : Nat
  second : Nat

/-- Decimal digit character for `n % 10`. -/
def digitChar (n : Nat) : Char := Char.ofNat (48 + n % 10)

/-- Two decimal digits, as emitted by the `strftime` fields
`%H`, `%M`, `%S`, `%m`, `%d`. -/
def twoDigits (n : Nat) : List Char := [digitChar (n / 10), digitChar n]

/-- Four decimal digits, as emitted by the `strftime` field `%Y`. -/
def fourDigits (n : Nat) : List Char :=
  [digitChar (n / 1000), digitChar (n / 100), digitChar (n / 10), digitChar n]

/-- The characters `strftime` would produce for the format `"%H:%M:%S"`. -/
def timeFormat (t : Tm) : String :=
  String.mk (twoDigits t.hour ++ ':' :: twoDigits t.minute ++ ':' :: twoDigits t.second)

/-- The characters `strftime` would produce for the format `"%F"`,
i.e. `"%Y-%m-%d"`. -/
def dateFormat (t : Tm) : String :=
  String.mk (fourDigits t.year ++ '-' :: twoDigits t.month ++ '-' :: twoDigits t.day)

/-- Model of `std::strftime(buf, maxsize, fmt, tm)`: the formatted string
is stored only when it fits, null terminator included, within `maxsize`
bytes; otherwise nothing usable is produced. -/
def strftimeWrite (maxsize : Nat) (formatted : String) : Option String :=
  if formatted.length + 1 ≤ maxsize then some formatted else none

/-- The size argument the source actually passes: `sizeof(t)` where
`t : char*`, i.e. the size of a pointer on the 64-bit target. -/
def sizeof_char_ptr : Nat := 8

/-- `Pond::_getTime`: formats `"%H:%M:%S"` into a `char[9]` buffer but
passes `sizeof(char*)` as the limit. -/
def _getTime (t : Tm) : Option String := strftimeWrite sizeof_char_ptr (timeFormat t)

/-- `Pond::_getDate`: formats `"%F"` into a `char[11]` buffer but passes
`sizeof(char*)` as the limit. -/
def _getDate (t : Tm) : Option String := strftimeWrite sizeof_char_ptr (dateFormat t)

/-- The `tdate` and `ttime` column values bound by `Pond::addPost`
(it binds `_getDate()` and `_getTime()` directly). -/
def addPost_timestamp (t : Tm) : Option String × Option String := (_getDate t, _getTime t)

/-- The `start_date` column value bound by `Pond::follow`
(it binds `_getDate()` directly). -/
def follow_start_date (t : Tm) : Option String := _getDate t

/-! ### The feed query: `Pond::getFeed`

The query is

```
SELECT 'tweet', t1.tid, u1.name, t1.writer_id, t1.tdate AS date, t1.ttime AS time, t1.text
FROM tweets t1 JOIN follows f1 ON t1.writer_id = f1.flwee
               JOIN users u1 ON t1.writer_id = u1.usr
WHERE f1.flwer = ?
UNION
SELECT 'retweet', t2.tid, u2.name, r.retweeter_id, r.rdate AS date, t2.ttime AS time, t2.text
FROM retweets r JOIN tweets t2 ON t2.tid = r.tid
                JOIN follows f2 ON r.retweeter_id = f2.flwee
                JOIN users u2 ON r.retweeter_id = u2.usr
WHERE f2.flwer = ? AND r.spam = 0
ORDER BY date DESC, time DESC
```

We model the tables as lists of rows, the joins as nested flat maps with
the literal join/filter conditions, `UNION` as deduplicated
concatenation, and `ORDER BY date DESC, time DESC` as a stable sort by
the pair of TEXT columns in descending order (SQLite compares TEXT with
memcmp under the default BINARY collation; on UTF-8 data that is
code-point order). -/

/-- Strict code-point order on character lists (memcmp on UTF-8). -/
def charListLt : List Char → List Char → Bool
  | [], [] => false
  | [], _ :: _ => true
  | _ :: _, [] => false
  | a :: as, b :: bs =>
    if a.toNat < b.toNat then true
    else if b.toNat < a.toNat then false
    else charListLt as bs

/-- Strict BINARY-collation order on TEXT values. -/
def strLt (a b : String) : Bool := charListLt a.data b.data

/-- Row of the `tweets` table (the columns the feed query reads). -/
structure TweetRow where
  tid : Int
  writer_id : Int
  text : String
  tdate : String
  ttime : String
deriving DecidableEq

/-- Row of the `retweets` table (the columns the feed query reads). -/
structure RetweetRow where
  tid : Int
  retweeter_id : Int
  rdate : String
  spam : Int
deriving DecidableEq

/-- Row of the `follows` table. -/
structure FollowRow where
  flwer : Int
  flwee : Int
deriving DecidableEq

/-- Row of the `users` table (the columns the feed query reads). -/
structure UserRow where
  usr : Int
  name : String
deriving DecidableEq

/-- The tables the feed query touches. -/
structure DB where
  users : List UserRow
  tweets : List TweetRow
  retweets : List RetweetRow
  follows : List FollowRow

/-- A row of the feed query's result set. -/
structure FeedRow where
  typ : String
  tid : Int
  name : String
  writer_id : Int
  date : String
  time : String
  text : String
deriving DecidableEq

/-- Result row produced by the first arm of the UNION for a tweet `t`
and its author `u`. -/
def tweetRowOf (t : TweetRow) (u : UserRow) : FeedRow :=
  { typ := "tweet", tid := t.tid, name := u.name, writer_id := t.writer_id,
    date := t.tdate, time := t.ttime, text := t.text }

/-- Result row produced by the second arm of the UNION for a retweet `r`
of tweet `t` by user `u`: the date is the retweet's `rdate`, while the
time is the underlying tweet's `ttime` (the `retweets` table has no time
column). -/
def retweetRowOf (r : RetweetRow) (t : TweetRow) (u : UserRow) : FeedRow :=
  { typ := "retweet", tid := t.tid, name := u.name, writer_id := r.retweeter_id,
    date := r.rdate, time := t.ttime, text := t.text }

/-- First arm of the UNION: tweets by users the viewer follows. -/
def tweetRows (db : DB) (uid : Int) : List FeedRow :=
  db.tweets.flatMap fun t =>
    db.follows.flatMap fun f =>
      db.users.flatMap fun u =>
        if t.writer_id = f.flwee ∧ f.flwer = uid ∧ t.writer_id = u.usr then
          [tweetRowOf t u]
        else []

/-- Second arm of the UNION: non-spam retweets by users the viewer
follows, joined with the retweeted tweet. -/
def retweetRows (db : DB) (uid : Int) : List FeedRow :=
  db.retweets.flatMap fun r =>
    db.tweets.flatMap fun t =>
      db.follows.flatMap fun f =>
        db.users.flatMap fun u =>
          if t.tid = r.tid ∧ r.retweeter_id = f.flwee ∧ f.flwer = uid ∧
              r.retweeter_id = u.usr ∧ r.spam = 0 then
            [retweetRowOf r t u]
          else []

/-- Strict comparison on the `(date, time)` sort key of `ORDER BY date
DESC, time DESC`: `a` sorts strictly after `b` in the descending result
iff `keyLtB a b`. -/
def keyLtB (a b : FeedRow) : Bool :=
  strLt a.date b.date || (a.date == b.date && strLt a.time b.time)

/-- Relation holding between consecutive rows of the descending result:
the earlier row's key is not smaller. -/
def feedGE (a b : FeedRow) : Prop := keyLtB a b = false

/-- Insertion into a descending-sorted list, keeping existing rows with
a strictly larger key in front (stable with respect to equal keys). -/
def insertFeed (x : FeedRow) : List FeedRow → List FeedRow
  | [] => [x]
  | b :: l => if keyLtB x b then b :: insertFeed x l else x :: b :: l

/-- Stable sort by `(date, time)` descending. -/
def sortFeed : List FeedRow → List FeedRow
  | [] => []
  | a :: l => insertFeed a (sortFeed l)

/-- The feed query's result set: the two arms, deduplicated by UNION,
then ordered by `(date, time)` descending. -/
def getFeedRows (db : DB) (uid : Int) : List FeedRow :=
  sortFeed ((tweetRows db uid ++ retweetRows db uid).dedup)

/-- Rendering of one result row into the string pushed onto the feed
vector by `Pond::getFeed`: the author name padded with spaces to column
80, the date, a space, the time, a blank line and the text.  The row's
`tid` does **not** appear anywhere in the rendered line. -/
def feedLine (name date time text : String) : String :=
  name ++ String.mk (List.replicate (80 - name.length) ' ') ++ date ++ (" ") ++ time ++
    ("\n\n") ++ text ++ ("\n")

/-- `Pond::getFeed`: the rendered feed lines in query order. -/
def getFeed (db : DB) (uid : Int) : List String :=
  (getFeedRows db uid).map fun r => feedLine r.name r.date r.time r.text

end Pond

namespace Quacker

/-! ### Pagination: `Quacker::processFeed` and the selection logic of
`Quacker::mainPage` case `'5'` -/

/-- Whitespace class of the ECMAScript regex `\s`. -/
def isSpaceChar (c : Char) : Bool :=
  c == ' ' || c == '\t' || c == '\n' || c == '\x0b' || c == '\x0c' || c == '\r'

/-- Numeric value of a digit string (the value `std::stoi` parses from
the matched digits; `stoi` would throw on values beyond `int`, which
cannot occur in the scenarios considered here). -/
def digitsVal (l : List Char) : Nat :=
  l.foldl (fun n c => 10 * n + (c.toNat - 48)) 0

/-- `Quacker::extractQuackID`: requires the string to begin with the
prefix `"Quack Id: "` (`find(prefix) == 0`), then matches the regex
`^Quack Id:\s+(\d+)` and returns the captured integer; on any failure it
prints an error and returns `-1`. -/
def extractQuackID (s : String) : Int :=
  if List.isPrefixOf ("Quack Id: ".data) s.data then
    let rest := s.data.drop 9
    let ds := (rest.dropWhile isSpaceChar).takeWhile Char.isDigit
    if rest.takeWhile isSpaceChar ≠ [] ∧ ds ≠ [] then (digitsVal ds : Int) else -1
  else -1

/-- Observable outcome of one `Quacker::processFeed` call:
`newCount` is the value of the in/out parameter `FeedDisplayCount` on
return, `ids` the repopulated `feed_quack_ids` vector, `rendered` the
list of (row number, feed entry) pairs written to the output, `iFinal`
the value of the in/out counter `i` on return, and `noMore` /
`alreadyMin` record which of the two informational error messages was
set. -/
structure FeedState where
  newCount : Int
  ids : List Int
  rendered : List (Nat × String)
  iFinal : Int
  noMore : Bool
  alreadyMin : Bool
deriving DecidableEq

/-- The id-collecting side of the display loop
`while (i-1 < bound) { feed_quack_ids.push_back(extractQuackID(feed[i-1])); ++i; ... }`,
with `k` the 0-based index `i - 1`. -/
def idsLoop (dc : Nat) : Nat → List String → List Int
  | _, [] => []
  | k, s :: rest => if k < dc then extractQuackID s :: idsLoop dc (k + 1) rest else []

/-- The printing side of the display loop: after the id push the entry
is printed as row `i-1` unless `bound - 5 >= i - 1`, i.e. exactly the
positions `p` with `bound - 5 < p ≤ bound` are rendered. -/
def renderLoop (dc : Nat) : Nat → List String → List (Nat × String)
  | _, [] => []
  | k, s :: rest =>
    if k < dc then
      (if dc ≤ k + 5 then [(k + 1, s)] else []) ++ renderLoop dc (k + 1) rest
    else []

/-- The shared tail of cases 2 and 3 of `Quacker::processFeed`:
`displayCount = min(FeedDisplayCount, maxQuacks)` bounds both loops and
`FeedDisplayCount` is left unchanged. -/
def displayCase (FDC : Int) (feed : List String) : FeedState :=
  { newCount := FDC
    ids := idsLoop (min FDC (feed.length : Int)).toNat 0 feed
    rendered := renderLoop (min FDC (feed.length : Int)).toNat 0 feed
    iFinal := min FDC (feed.length : Int) + 1
    noMore := false
    alreadyMin := false }

/-- `Quacker::processFeed`, with its four cases in source order:
1. `FeedDisplayCount >= maxQuacks + 5`: report "no more quacks", undo
   one page step (floored at 0) and render the last window of the whole
   feed;
2. `maxQuacks <= FeedDisplayCount <= maxQuacks + 4` and
3. `0 < FeedDisplayCount < maxQuacks`: render the window ending at
   `min(FeedDisplayCount, maxQuacks)`;
4. `FeedDisplayCount <= 0`: clamp to 0, reporting "already not
   displaying any quacks" when it was strictly negative. -/
def processFeed (FDC : Int) (feed : List String) : FeedState :=
  if (feed.length : Int) + 5 ≤ FDC then
    { newCount := max 0 (FDC - 5)
      ids := idsLoop feed.length 0 feed
      rendered := renderLoop feed.length 0 feed
      iFinal := (feed.length : Int) + 1
      noMore := true
      alreadyMin := false }
  else if (feed.length : Int) ≤ FDC then displayCase FDC feed
  else if 0 < FDC then displayCase FDC feed
  else
    { newCount := 0, ids := [], rendered := [], iFinal := 1
      noMore := false, alreadyMin := decide (FDC ≠ 0) }

/-- Selection resolution of `Quacker::mainPage` case `'5'`: the typed
row number (already matched against `^[1-9]\d*$`, hence `1 ≤ row`) is
decremented to `selection = row - 1` and rejected unless
`i - 6 ≤ selection ≤ i - 2`; an accepted selection is looked up in
`feed_quack_ids` (in the source an unchecked `operator[]`; for accepted
selections the index is within bounds). -/
def resolveSelection (st : FeedState) (row : Int) : Option Int :=
  if st.iFinal - 2 < row - 1 ∨ row - 1 < st.iFinal - 6 then none
  else some (st.ids.getD (row - 1).toNat 0)

/-- Window predicate: keep the entries whose 1-based position lies in
the integer interval `(lo, hi]`. -/
def windowFun (lo hi : Int) : Nat × String → Option (Nat × String) := fun p =>
  if lo < ((p.1 + 1 : Nat) : Int) ∧ ((p.1 + 1 : Nat) : Int) ≤ hi then some (p.1 + 1, p.2)
  else none

/-- The visible slice exactly as the specification words it: the
entries whose 1-based positions lie in
`(requestedSize - pageStep, min(requestedSize, totalCount)]`. -/
def visibleSliceClaimed (rs : Int) (feed : List String) : List (Nat × String) :=
  feed.enum.filterMap (windowFun (rs - 5) (min rs (feed.length : Int)))

/-- The visible slice with the lower bound anchored at the clamped end
`min(requestedSize, totalCount)` instead of `requestedSize`: positions
in `(min(requestedSize, totalCount) - pageStep, min(requestedSize, totalCount)]`. -/
def visibleSliceClamped (rs : Int) (feed : List String) : List (Nat × String) :=
  feed.enum.filterMap
    (windowFun (min rs (feed.length : Int) - 5) (min rs (feed.length : Int)))

end Quacker

/-! ### Concrete data used by individual claims -/

/-- Database with one followed author and one stored quack (tid 7). -/
def c1db : Pond.DB :=
  { users := [{ usr := 2, name := "alice" }]
    tweets := [{ tid := 7, writer_id := 2, text := "hello pond",
                 tdate := "2024-04-01", ttime := "12:00:00" }]
    retweets := []
    follows := [{ flwer := 9, flwee := 2 }] }

/-- A feed of 7 rendered entries. -/
def c2feed : List String := ["q1", "q2", "q3", "q4", "q5", "q6", "q7"]

/-- A feed of 12 rendered entries (the claim's `totalCount = 12`). -/
def c3feed : List String :=
  ["q1", "q2", "q3", "q4", "q5", "q6", "q7", "q8", "q9", "q10", "q11", "q12"]

/-- A feed of 1 rendered entry. -/
def c4feed : List String := ["q1"]

/-- Database with one non-spam retweet whose `rdate` differs from the
underlying tweet's `ttime` and `tdate`. -/
def c7db : Pond.DB :=
  { users := [{ usr := 3, name := "bob" }]
    tweets := [{ tid := 1, writer_id := 2, text := "hi",
                 tdate := "2024-01-01", ttime := "09:00:00" }]
    retweets := [{ tid := 1, retweeter_id := 3, rdate := "2024-02-02", spam := 0 }]
    follows := [{ flwer := 9, flwee := 3 }] }

/-- The single feed row produced by `c7db` for viewer 9. -/
def c7row : Pond.FeedRow :=
  { typ := "retweet", tid := 1, name := "bob", writer_id := 3,
    date := "2024-02-02", time := "09:00:00", text := "hi" }

/-- Database whose post stream holds one entry with timestamp
`(d2, t1) = ("2024-03-02", "10:00:00")` and whose re-share stream holds
one entry with timestamp `(d3, t1) = ("2024-03-03", "10:00:00")`. -/
def c8db : Pond.DB :=
  { users := [{ usr := 1, name := "ann" }, { usr := 2, name := "bob" }]
    tweets := [{ tid := 1, writer_id := 1, text := "p1",
                 tdate := "2024-03-02", ttime := "10:00:00" },
               { tid := 2, writer_id := 5, text := "p2",
                 tdate := "2024-01-01", ttime := "10:00:00" }]
    retweets := [{ tid := 2, retweeter_id := 2, rdate := "2024-03-03", spam := 0 }]
    follows := [{ flwer := 9, flwee := 1 }, { flwer := 9, flwee := 2 }] }

/-- The d2 entry of `c8db` (from the post stream). -/
def c8entryD2 : Pond.FeedRow :=
  { typ := "tweet", tid := 1, name := "ann", writer_id := 1,
    date := "2024-03-02", time := "10:00:00", text := "p1" }

/-- The d3 entry of `c8db` (from the re-share stream). -/
def c8entryD3 : Pond.FeedRow :=
  { typ := "retweet", tid := 2, name := "bob", writer_id := 2,
    date := "2024-03-03", time := "10:00:00", text := "p2" }

/-- Database with a single non-spam retweet, for the C9 witness. -/
def c9db : Pond.DB :=
  { users := [{ usr := 2, name := "bob" }]
    tweets := [{ tid := 1, writer_id := 4, text := "x",
                 tdate := "2024-01-01", ttime := "01:01:01" }]
    retweets := [{ tid := 1, retweeter_id := 2, rdate := "2024-05-05", spam := 0 }]
    follows := [{ flwer := 9, flwee := 2 }] }

/-- The single feed row produced by `c9db` for viewer 9. -/
def c9row : Pond.FeedRow :=
  { typ := "retweet", tid := 1, name := "bob", writer_id := 2,
    date := "2024-05-05", time := "01:01:01", text := "x" }

/-! ## Supporting lemmas -/

namespace Pond

theorem posScan_cons (uid c : Int) (rest : List Int) :
    posScan uid (c :: rest) =
      if c = uid then posScan (wrap32 (uid + 1)) rest
      else if uid < c then (uid, true)
      else posScan uid rest := rfl

theorem wrap32_bounds (n : Int) : -(2 ^ 31) ≤ wrap32 n ∧ wrap32 n ≤ 2 ^ 31 - 1 := by
  unfold wrap32
  have h1 : 0 ≤ (n + 2 ^ 31) % 2 ^ 32 := Int.emod_nonneg _ (by norm_num)
  have h2 : (n + 2 ^ 31) % 2 ^ 32 < 2 ^ 32 := Int.emod_lt_of_pos _ (by norm_num)
  omega

theorem wrap32_eq_self {n : Int} (h1 : -(2 ^ 31) ≤ n) (h2 : n ≤ 2 ^ 31 - 1) :
    wrap32 n = n := by
  unfold wrap32
  have : (n + 2 ^ 31) % 2 ^ 32 = n + 2 ^ 31 :=
    Int.emod_eq_of_lt (by omega) (by omega)
  omega

theorem posScan_fst_le (l : List Int) :
    ∀ uid : Int, -(2 ^ 31) ≤ uid → uid ≤ 2 ^ 31 - 1 →
      -(2 ^ 31) ≤ (posScan uid l).1 ∧ (posScan uid l).1 ≤ 2 ^ 31 - 1 := by
  induction l with
  | nil => intro uid h1 h2; exact ⟨h1, h2⟩
  | cons c rest ih =>
    intro uid h1 h2
    by_cases hc : c = uid
    · simp only [posScan, if_pos hc]
      exact ih _ (wrap32_bounds _).1 (wrap32_bounds _).2
    · by_cases hlt : uid < c
      · simp only [posScan, if_neg hc, if_pos hlt]
        exact ⟨h1, h2⟩
      · simp only [posScan, if_neg hc, if_neg hlt]
        exact ih _ h1 h2

/-- The guard `!found && unique_id > INT32_MAX` can never hold: the
candidate is an `int32_t` and therefore never exceeds `INT32_MAX`, so
the negative allocation pool is unreachable and the function always
returns the result of the non-negative scan. -/
theorem get_unique_user_id_eq_posScan (pos neg : List Int) :
    get_unique_user_id pos neg = (posScan 1 pos).1 := by
  unfold get_unique_user_id
  have h := posScan_fst_le pos 1 (by norm_num) (by norm_num)
  rw [if_neg]
  intro hcontra
  exact absurd hcontra.2 (by omega)

theorem posScan_intRange (m : Nat) :
    ∀ a : Int, -(2 ^ 31) ≤ a → a + (m + 1 : Nat) ≤ 2 ^ 31 →
      posScan a (intRange a (m + 1)) = (wrap32 (a + (m + 1 : Nat)), false) := by
  induction m with
  | zero =>
    intro a _ _
    show posScan a (a :: intRange (a + 1) 0) = _
    simp only [posScan, intRange, if_pos rfl]
    norm_num
  | succ m ih =>
    intro a h1 h2
    have hcast : ((m + 1 + 1 : Nat) : Int) = ((m + 1 : Nat) : Int) + 1 := by
      push_cast
      ring
    rw [hcast] at h2
    have hmnn : (0 : Int) ≤ ((m + 1 : Nat) : Int) := by positivity
    have hw : wrap32 (a + 1) = a + 1 := wrap32_eq_self (by omega) (by omega)
    show posScan a (a :: intRange (a + 1) (m + 1)) = _
    rw [posScan_cons, if_pos rfl, hw, ih (a + 1) (by omega) (by omega)]
    rw [hcast]
    have harith : a + 1 + ((m + 1 : Nat) : Int) = a + (((m + 1 : Nat) : Int) + 1) := by
      ring
    rw [harith]

theorem posScan_sorted_least (l : List Int) :
    ∀ uid : Int, l.Sorted (· ≤ ·) → 1 ≤ uid →
      uid + l.length ≤ 2 ^ 31 - 1 →
      uid ≤ (posScan uid l).1 ∧ (posScan uid l).1 ∉ l ∧
        ∀ m : Int, uid ≤ m → m < (posScan uid l).1 → m ∈ l := by
  induction l with
  | nil =>
    intro uid _ _ _
    refine ⟨le_refl _, by simp, ?_⟩
    intro m h1 h2
    simp only [posScan] at h2
    omega
  | cons c rest ih =>
    intro uid hsorted huid hlen
    rw [List.sorted_cons] at hsorted
    obtain ⟨hc_le, hrest⟩ := hsorted
    by_cases hc : c = uid
    · simp only [posScan, if_pos hc]
      have hw : wrap32 (uid + 1) = uid + 1 := by
        refine wrap32_eq_self (by omega) ?_
        simp only [List.length_cons] at hlen
        push_cast at hlen
        omega
      rw [hw]
      have hlen2 : uid + 1 + rest.length ≤ 2 ^ 31 - 1 := by
        simp only [List.length_cons] at hlen
        push_cast at hlen ⊢
        omega
      obtain ⟨ih1, ih2, ih3⟩ := ih (uid + 1) hrest (by omega) hlen2
      refine ⟨by omega, ?_, ?_⟩
      · intro hmem
        rcases List.mem_cons.mp hmem with h | h
        · omega
        · exact ih2 h
      · intro m h1 h2
        rcases eq_or_lt_of_le h1 with h | h
        · exact List.mem_cons.mpr (Or.inl (by omega))
        · exact List.mem_cons.mpr (Or.inr (ih3 m (by omega) h2))
    · by_cases hlt : uid < c
      · simp only [posScan, if_neg hc, if_pos hlt]
        refine ⟨le_refl _, ?_, ?_⟩
        · intro hmem
          rcases List.mem_cons.mp hmem with h | h
          · omega
          · have := hc_le _ h
            omega
        · intro m h1 h2
          omega
      · simp only [posScan, if_neg hc, if_neg hlt]
        have hlen2 : uid + rest.length ≤ 2 ^ 31 - 1 := by
          simp only [List.length_cons] at hlen
          push_cast at hlen ⊢
          omega
        obtain ⟨ih1, ih2, ih3⟩ := ih uid hrest huid hlen2
        refine ⟨ih1, ?_, ?_⟩
        · intro hmem
          rcases List.mem_cons.mp hmem with h | h
          · omega
          · exact ih2 h
        · intro m h1 h2
          exact List.mem_cons.mpr (Or.inr (ih3 m h1 h2))

theorem charListLt_irrefl : ∀ as : List Char, charListLt as as = false := by
  intro as
  induction as with
  | nil => rfl
  | cons a as ih =>
    simp only [charListLt]
    split_ifs with h1
    · omega
    · exact ih

theorem charListLt_asymm :
    ∀ as bs : List Char, charListLt as bs = true → charListLt bs as = false := by
  intro as
  induction as with
  | nil =>
    intro bs h
    cases bs with
    | nil => exact absurd h (by simp [charListLt])
    | cons b bs => rfl
  | cons a as ih =>
    intro bs h
    cases bs with
    | nil => exact absurd h (by simp [charListLt])
    | cons b bs =>
      simp only [charListLt] at h ⊢
      split_ifs at h ⊢ with h1 h2 h3 h4
      all_goals first
        | rfl
        | omega
        | exact ih bs h
        | exact absurd h (by simp)

theorem charListLt_trans :
    ∀ as bs cs : List Char,
      charListLt as bs = true → charListLt bs cs = true → charListLt as cs = true := by
  intro as
  induction as with
  | nil =>
    intro bs cs h1 h2
    cases bs with
    | nil => exact absurd h1 (by simp [charListLt])
    | cons b bs =>
      cases cs with
      | nil => exact absurd h2 (by simp [charListLt])
      | cons c cs => rfl
  | cons a as ih =>
    intro bs cs h1 h2
    cases bs with
    | nil => exact absurd h1 (by simp [charListLt])
    | cons b bs =>
      cases cs with
      | nil => exact absurd h2 (by simp [charListLt])
      | cons c cs =>
        simp only [charListLt] at h1 h2 ⊢
        split_ifs at h1 h2 ⊢ with hab hba hbc hcb hac hca
        all_goals first
          | rfl
          | omega
          | exact ih bs cs h1 h2
          | (exact absurd h1 (by simp))
          | (exact absurd h2 (by simp))

theorem charListLt_eq_of_not_lt :
    ∀ as bs : List Char,
      charListLt as bs = false → charListLt bs as = false → as = bs := by
  intro as
  induction as with
  | nil =>
    intro bs h1 _
    cases bs with
    | nil => rfl
    | cons b bs => exact absurd h1 (by simp [charListLt])
  | cons a as ih =>
    intro bs h1 h2
    cases bs with
    | nil => exact absurd h2 (by simp [charListLt])
    | cons b bs =>
      simp only [charListLt] at h1 h2
      by_cases hab : a.toNat < b.toNat
      · rw [if_pos hab] at h1
        exact absurd h1 (by simp)
      · by_cases hba : b.toNat < a.toNat
        · rw [if_pos hba] at h2
          exact absurd h2 (by simp)
        · rw [if_neg hab, if_neg hba] at h1
          rw [if_neg hba, if_neg hab] at h2
          have hchar : a = b := by
            have htn : a.toNat = b.toNat := by omega
            rw [← Char.ofNat_toNat a, ← Char.ofNat_toNat b, htn]
          rw [hchar, ih bs h1 h2]

theorem strLt_irrefl (s : String) : strLt s s = false := charListLt_irrefl s.data

theorem strLt_asymm {s t : String} (h : strLt s t = true) : strLt t s = false :=
  charListLt_asymm s.data t.data h

theorem strLt_trans {s t u : String} (h1 : strLt s t = true) (h2 : strLt t u = true) :
    strLt s u = true :=
  charListLt_trans s.data t.data u.data h1 h2

theorem strLt_eq_of_not_lt {s t : String} (h1 : strLt s t = false)
    (h2 : strLt t s = false) : s = t := by
  have := charListLt_eq_of_not_lt s.data t.data h1 h2
  cases s
  cases t
  simp_all

theorem keyLtB_asymm {x y : FeedRow} (h : keyLtB x y = true) : keyLtB y x = false := by
  unfold keyLtB at h ⊢
  rw [Bool.or_eq_true] at h
  rw [Bool.or_eq_false_iff, Bool.and_eq_false_iff]
  rcases h with h | h
  · refine ⟨strLt_asymm h, Or.inl ?_⟩
    rw [beq_eq_false_iff_ne]
    intro heq
    rw [heq] at h
    rw [strLt_irrefl] at h
    exact absurd h (by simp)
  · rw [Bool.and_eq_true, beq_iff_eq] at h
    obtain ⟨hdate, htime⟩ := h
    rw [hdate]
    refine ⟨strLt_irrefl _, Or.inr ?_⟩
    exact strLt_asymm htime

theorem keyLtB_link {x y z : FeedRow} (h1 : keyLtB x y = true)
    (h2 : keyLtB z y = false) : keyLtB x z = true := by
  unfold keyLtB at h1 h2 ⊢
  rw [Bool.or_eq_true] at h1 ⊢
  rw [Bool.or_eq_false_iff, Bool.and_eq_false_iff] at h2
  obtain ⟨h2d, h2t⟩ := h2
  rcases h1 with h1 | h1
  · by_cases hdz : strLt y.date z.date = true
    · exact Or.inl (strLt_trans h1 hdz)
    · have hzy : z.date = y.date :=
        strLt_eq_of_not_lt h2d (by revert hdz; cases strLt y.date z.date <;> simp)
      rw [hzy]
      exact Or.inl h1
  · rw [Bool.and_eq_true, beq_iff_eq] at h1
    obtain ⟨hdate, htime⟩ := h1
    by_cases hdz : strLt y.date z.date = true
    · rw [hdate]
      exact Or.inl hdz
    · have hzy : z.date = y.date :=
        strLt_eq_of_not_lt h2d (by revert hdz; cases strLt y.date z.date <;> simp)
      rcases h2t with h2t | h2t
      · rw [beq_eq_false_iff_ne] at h2t
        exact absurd hzy h2t
      · refine Or.inr ?_
        rw [Bool.and_eq_true, beq_iff_eq]
        refine ⟨by rw [hdate, hzy], ?_⟩
        by_cases htz : strLt y.time z.time = true
        · exact strLt_trans htime htz
        · have hty : z.time = y.time :=
            strLt_eq_of_not_lt h2t (by revert htz; cases strLt y.time z.time <;> simp)
          rw [hty]
          exact htime

theorem insertFeed_perm (x : FeedRow) (l : List FeedRow) :
    List.Perm (insertFeed x l) (x :: l) := by
  induction l with
  | nil => rfl
  | cons b l ih =>
    unfold insertFeed
    split_ifs with h
    · exact ((ih.cons b).trans (List.Perm.swap x b l))
    · rfl

theorem mem_insertFeed {x y : FeedRow} {l : List FeedRow} :
    y ∈ insertFeed x l ↔ y = x ∨ y ∈ l := by
  rw [(insertFeed_perm x l).mem_iff, List.mem_cons]

theorem sorted_insertFeed (x : FeedRow) (l : List FeedRow)
    (h : l.Sorted feedGE) : (insertFeed x l).Sorted feedGE := by
  induction l with
  | nil => simp [insertFeed, List.Sorted]
  | cons b l ih =>
    rw [List.sorted_cons] at h
    obtain ⟨hb, hl⟩ := h
    unfold insertFeed
    split_ifs with hlt
    · rw [List.sorted_cons]
      refine ⟨?_, ih hl⟩
      intro y hy
      rcases mem_insertFeed.mp hy with rfl | hy
      · exact keyLtB_asymm hlt
      · exact hb y hy
    · rw [List.sorted_cons]
      refine ⟨?_, List.sorted_cons.mpr ⟨hb, hl⟩⟩
      intro y hy
      rcases List.mem_cons.mp hy with rfl | hy
      · unfold feedGE
        revert hlt
        cases keyLtB x y <;> simp
      · show keyLtB x y = false
        by_contra hxy
        rw [Bool.not_eq_false] at hxy
        have := keyLtB_link hxy (hb y hy)
        revert hlt this
        cases keyLtB x b <;> simp

theorem sortFeed_sorted (l : List FeedRow) : (sortFeed l).Sorted feedGE := by
  induction l with
  | nil => simp [sortFeed, List.Sorted]
  | cons a l ih => exact sorted_insertFeed a (sortFeed l) ih

theorem sortFeed_perm (l : List FeedRow) : List.Perm (sortFeed l) l := by
  induction l with
  | nil => rfl
  | cons a l ih => exact (insertFeed_perm a (sortFeed l)).trans (ih.cons a)

theorem mem_singleton_ite {α : Type} {p : Prop} [Decidable p] {x v : α} :
    (x ∈ if p then [v] else []) ↔ p ∧ x = v := by
  split_ifs with hp
  · simp [hp]
  · simp [hp]

theorem mem_tweetRows_iff {db : DB} {uid : Int} {x : FeedRow} :
    x ∈ tweetRows db uid ↔
      ∃ t ∈ db.tweets, ∃ f ∈ db.follows, ∃ u ∈ db.users,
        (t.writer_id = f.flwee ∧ f.flwer = uid ∧ t.writer_id = u.usr) ∧
          x = tweetRowOf t u := by
  unfold tweetRows
  simp only [List.mem_flatMap, mem_singleton_ite]

theorem mem_retweetRows_iff {db : DB} {uid : Int} {x : FeedRow} :
    x ∈ retweetRows db uid ↔
      ∃ r ∈ db.retweets, ∃ t ∈ db.tweets, ∃ f ∈ db.follows, ∃ u ∈ db.users,
        (t.tid = r.tid ∧ r.retweeter_id = f.flwee ∧ f.flwer = uid ∧
            r.retweeter_id = u.usr ∧ r.spam = 0) ∧
          x = retweetRowOf r t u := by
  unfold retweetRows
  simp only [List.mem_flatMap, mem_singleton_ite]

theorem mem_getFeedRows_sub {db : DB} {uid : Int} {x : FeedRow}
    (h : x ∈ getFeedRows db uid) : x ∈ tweetRows db uid ++ retweetRows db uid := by
  unfold getFeedRows at h
  rw [(sortFeed_perm _).mem_iff, List.mem_dedup] at h
  exact h

theorem typ_of_mem_tweetRows {db : DB} {uid : Int} {x : FeedRow}
    (h : x ∈ tweetRows db uid) : x.typ = "tweet" := by
  rcases mem_tweetRows_iff.mp h with ⟨t, -, f, -, u, -, -, rfl⟩
  rfl

end Pond

namespace Quacker

theorem renderLoop_nil (dc k : Nat) : renderLoop dc k [] = [] := rfl

theorem renderLoop_cons (dc k : Nat) (s : String) (rest : List String) :
    renderLoop dc k (s :: rest) =
      if k < dc then
        (if dc ≤ k + 5 then [(k + 1, s)] else []) ++ renderLoop dc (k + 1) rest
      else [] := rfl

theorem renderLoop_stop (dc k : Nat) (feed : List String) (h : dc ≤ k) :
    renderLoop dc k feed = [] := by
  cases feed with
  | nil => rfl
  | cons s rest => rw [renderLoop_cons, if_neg (by omega)]

theorem windowFun_apply (lo hi : Int) (k : Nat) (s : String) :
    windowFun lo hi (k, s) =
      if lo < ((k + 1 : Nat) : Int) ∧ ((k + 1 : Nat) : Int) ≤ hi then some (k + 1, s)
      else none := rfl

theorem renderLoop_eq_filterMap (dc : Nat) (feed : List String) :
    ∀ k : Nat,
      renderLoop dc k feed =
        (List.enumFrom k feed).filterMap (windowFun ((dc : Int) - 5) (dc : Int)) := by
  induction feed with
  | nil => intro k; rfl
  | cons s rest ih =>
    intro k
    rw [renderLoop_cons, List.enumFrom_cons, List.filterMap_cons, windowFun_apply]
    by_cases hk : k < dc
    · rw [if_pos hk]
      by_cases h5 : dc ≤ k + 5
      · rw [if_pos h5, if_pos (by omega), ih (k + 1)]
        rfl
      · rw [if_neg h5, if_neg (by omega), ih (k + 1)]
        rfl
    · rw [if_neg hk, if_neg (by omega), ← ih (k + 1)]
      rw [renderLoop_stop dc (k + 1) rest (by omega)]

theorem renderLoop_length_le (dc : Nat) (feed : List String) :
    ∀ k : Nat, (renderLoop dc k feed).length ≤ dc - max k (dc - 5) := by
  induction feed with
  | nil => intro k; simp [renderLoop_nil]
  | cons s rest ih =>
    intro k
    rw [renderLoop_cons]
    split_ifs with hk h5
    · have := ih (k + 1)
      simp only [List.singleton_append, List.length_cons]
      omega
    · have := ih (k + 1)
      simp only [List.nil_append]
      omega
    · simp

theorem displayCase_rendered (FDC : Int) (feed : List String) :
    (displayCase FDC feed).rendered =
      renderLoop (min FDC (feed.length : Int)).toNat 0 feed := rfl

theorem processFeed_case1 (FDC : Int) (feed : List String)
    (h : (feed.length : Int) + 5 ≤ FDC) :
    processFeed FDC feed =
      { newCount := max 0 (FDC - 5)
        ids := idsLoop feed.length 0 feed
        rendered := renderLoop feed.length 0 feed
        iFinal := (feed.length : Int) + 1
        noMore := true
        alreadyMin := false } := by
  unfold processFeed
  rw [if_pos h]

theorem processFeed_display (FDC : Int) (feed : List String)
    (h1 : ¬ ((feed.length : Int) + 5 ≤ FDC))
    (h2 : (feed.length : Int) ≤ FDC ∨ 0 < FDC) :
    processFeed FDC feed = displayCase FDC feed := by
  unfold processFeed
  by_cases hh : (feed.length : Int) ≤ FDC
  · rw [if_neg h1, if_pos hh]
  · rcases h2 with h | h
    · exact absurd h hh
    · rw [if_neg h1, if_neg hh, if_pos h]

theorem processFeed_case4 (FDC : Int) (feed : List String)
    (h1 : FDC ≤ 0) (h2 : FDC < (feed.length : Int)) :
    processFeed FDC feed =
      { newCount := 0, ids := [], rendered := [], iFinal := 1
        noMore := false, alreadyMin := decide (FDC ≠ 0) } := by
  unfold processFeed
  rw [if_neg (by omega), if_neg (by omega), if_neg (by omega)]

theorem processFeed_rendered (rs : Int) (feed : List String) (h : 0 < rs) :
    (processFeed rs feed).rendered =
      renderLoop (min rs (feed.length : Int)).toNat 0 feed := by
  by_cases h1 : (feed.length : Int) + 5 ≤ rs
  · rw [processFeed_case1 rs feed h1]
    have hmin : (min rs (feed.length : Int)).toNat = feed.length := by omega
    rw [hmin]
  · rw [processFeed_display rs feed h1 (Or.inr h), displayCase_rendered]

end Quacker

/-! ## The claims -/

/-- C1: the claim states that a row number inside the visible slice
resolves, through the recorded per-row quack identifier, to exactly the
feed item rendered at that row.  The code records
`extractQuackID(feed[r-1])` for each row, but `Pond::getFeed` renders
lines beginning with the author's name, never with the prefix
`"Quack Id: "` that `Quacker::extractQuackID` requires, so every
recorded identifier is the error value `-1`: here the item rendered at
row 1 is the quack with tid 7, yet the selection resolves to `-1`.
Row numbers outside the visible slice are rejected as the claim says
(row 2 below). -/
theorem C1_selection_resolves_to_error_id :
    (Pond.getFeedRows c1db 9).map (fun r => r.tid) = [7] ∧
      (Quacker.processFeed 5 (Pond.getFeed c1db 9)).rendered =
        [(1, Pond.feedLine ("alice") ("2024-04-01") ("12:00:00") ("hello pond"))] ∧
      (Quacker.processFeed 5 (Pond.getFeed c1db 9)).ids = [-1] ∧
      Quacker.resolveSelection (Quacker.processFeed 5 (Pond.getFeed c1db 9)) 1 =
        some (-1) ∧
      ((-1 : Int) ≠ 7) ∧
      Quacker.resolveSelection (Quacker.processFeed 5 (Pond.getFeed c1db 9)) 2 =
        none := by
  decide

/-- C2: the claim places the visible slice at
`(requestedSize - pageStep, min(requestedSize, totalCount)]`.  With
`totalCount = 7` and `requestedSize = 10` the code renders rows 3 to 7
while the claimed interval is `(5, 7]`. -/
theorem C2_counterexample_window_anchor :
    (Quacker.processFeed 10 c2feed).rendered.map Prod.fst = [3, 4, 5, 6, 7] ∧
      (Quacker.visibleSliceClaimed 10 c2feed).map Prod.fst = [6, 7] ∧
      (Quacker.processFeed 10 c2feed).rendered ≠ Quacker.visibleSliceClaimed 10 c2feed := by
  decide

/-- C2 (amended): for `requestedSize > 0` the visible slice consists
exactly of the items whose 1-based positions lie in
`(min(requestedSize, totalCount) - pageStep, min(requestedSize, totalCount)]`
— the window is anchored at the clamped end — and it never holds more
than pageStep (5) items. -/
theorem C2_visible_slice_clamped (rs : Int) (feed : List String) (h : 0 < rs) :
    (Quacker.processFeed rs feed).rendered = Quacker.visibleSliceClamped rs feed ∧
      (Quacker.processFeed rs feed).rendered.length ≤ 5 := by
  have hcast : (((min rs (feed.length : Int)).toNat : Nat) : Int) =
      min rs (feed.length : Int) := Int.toNat_of_nonneg (by omega)
  constructor
  · rw [Quacker.processFeed_rendered rs feed h,
      Quacker.renderLoop_eq_filterMap ((min rs (feed.length : Int)).toNat) feed 0,
      Quacker.visibleSliceClamped, hcast]
    rfl
  · rw [Quacker.processFeed_rendered rs feed h]
    have := Quacker.renderLoop_length_le ((min rs (feed.length : Int)).toNat) feed 0
    omega

/-- C2 witness: at `requestedSize = 10` over a 7-item feed the rendered
window equals the clamped-anchor slice and holds at most 5 items. -/
theorem C2_visible_slice_clamped_witness :
    (Quacker.processFeed 10 c2feed).rendered = Quacker.visibleSliceClamped 10 c2feed ∧
      (Quacker.processFeed 10 c2feed).rendered.length ≤ 5 :=
  C2_visible_slice_clamped 10 c2feed (by norm_num)

/-- C3: `grow()` (menu option 1 followed by the `processFeed` clamp)
adds 5 to `requestedSize`; when the incremented value reaches
`totalCount + 5` the increment is undone and "no more quacks" is
signalled, otherwise the incremented value is kept and no signal is
raised. -/
theorem C3_grow_clamp (rs : Int) (feed : List String) (h : 0 ≤ rs) :
    ((feed.length : Int) + 5 ≤ rs + 5 →
      (Quacker.processFeed (rs + 5) feed).newCount = rs ∧
        (Quacker.processFeed (rs + 5) feed).noMore = true) ∧
    (rs + 5 < (feed.length : Int) + 5 →
      (Quacker.processFeed (rs + 5) feed).newCount = rs + 5 ∧
        (Quacker.processFeed (rs + 5) feed).noMore = false) := by
  constructor
  · intro hge
    rw [Quacker.processFeed_case1 (rs + 5) feed hge]
    exact ⟨by show max 0 (rs + 5 - 5) = rs; omega, rfl⟩
  · intro hlt
    rw [Quacker.processFeed_display (rs + 5) feed (by omega) (Or.inr (by omega))]
    exact ⟨rfl, rfl⟩

/-- C3 witness: with `totalCount = 12` and `requestedSize = 15`,
`grow()` signals "no more" and leaves `requestedSize` at 15. -/
theorem C3_grow_clamp_witness :
    (Quacker.processFeed (15 + 5) c3feed).newCount = 15 ∧
      (Quacker.processFeed (15 + 5) c3feed).noMore = true :=
  (C3_grow_clamp 15 c3feed (by norm_num)).1 (by norm_num [c3feed])

/-- C4: from any reachable menu state (`requestedSize` a non-negative
multiple of 5 that is at most `totalCount + 4`), `shrink()` (menu
option 2 followed by the `processFeed` clamp) subtracts 5 floored at 0
and signals "already not displaying any quacks" exactly when
`requestedSize` was already 0; moreover after either `shrink()` or
`grow()` the resulting `requestedSize` is again a non-negative multiple
of 5 (and at most `totalCount + 4`). -/
theorem C4_step_invariant (rs : Int) (feed : List String)
    (h0 : 0 ≤ rs) (h5 : 5 ∣ rs) (hre : rs ≤ (feed.length : Int) + 4) :
    (Quacker.processFeed (rs - 5) feed).newCount = max 0 (rs - 5) ∧
      ((Quacker.processFeed (rs - 5) feed).alreadyMin = true ↔ rs = 0) ∧
      (0 ≤ (Quacker.processFeed (rs - 5) feed).newCount ∧
        5 ∣ (Quacker.processFeed (rs - 5) feed).newCount ∧
        (Quacker.processFeed (rs - 5) feed).newCount ≤ (feed.length : Int) + 4) ∧
      (0 ≤ (Quacker.processFeed (rs + 5) feed).newCount ∧
        5 ∣ (Quacker.processFeed (rs + 5) feed).newCount ∧
        (Quacker.processFeed (rs + 5) feed).newCount ≤ (feed.length : Int) + 4) := by
  have hshrink : (Quacker.processFeed (rs - 5) feed).newCount = max 0 (rs - 5) ∧
      ((Quacker.processFeed (rs - 5) feed).alreadyMin = true ↔ rs = 0) := by
    by_cases hz : rs - 5 ≤ 0
    · by_cases hlen : rs - 5 < (feed.length : Int)
      · rw [Quacker.processFeed_case4 (rs - 5) feed hz hlen]
        constructor
        · show (0 : Int) = max 0 (rs - 5)
          omega
        · show (decide (rs - 5 ≠ 0) = true ↔ rs = 0)
          rw [decide_eq_true_eq]
          omega
      · rw [Quacker.processFeed_display (rs - 5) feed (by omega) (Or.inl (by omega))]
        constructor
        · show rs - 5 = max 0 (rs - 5)
          omega
        · show (false = true ↔ rs = 0)
          constructor
          · intro hf
            exact absurd hf (by simp)
          · intro hrs
            omega
    · rw [Quacker.processFeed_display (rs - 5) feed (by omega) (Or.inr (by omega))]
      constructor
      · show rs - 5 = max 0 (rs - 5)
        omega
      · show (false = true ↔ rs = 0)
        constructor
        · intro hf
          exact absurd hf (by simp)
        · intro hrs
          omega
  have hgrow : 0 ≤ (Quacker.processFeed (rs + 5) feed).newCount ∧
      5 ∣ (Quacker.processFeed (rs + 5) feed).newCount ∧
      (Quacker.processFeed (rs + 5) feed).newCount ≤ (feed.length : Int) + 4 := by
    by_cases h1 : (feed.length : Int) + 5 ≤ rs + 5
    · rw [Quacker.processFeed_case1 (rs + 5) feed h1]
      show 0 ≤ max 0 (rs + 5 - 5) ∧ 5 ∣ max 0 (rs + 5 - 5) ∧
        max 0 (rs + 5 - 5) ≤ (feed.length : Int) + 4
      omega
    · rw [Quacker.processFeed_display (rs + 5) feed h1 (Or.inr (by omega))]
      show 0 ≤ rs + 5 ∧ 5 ∣ rs + 5 ∧ rs + 5 ≤ (feed.length : Int) + 4
      omega
  refine ⟨hshrink.1, hshrink.2, ?_, hgrow⟩
  rw [hshrink.1]
  omega

/-- C4 witness: from `requestedSize = 5` over a 1-item feed, shrinking
clamps to 0 without the "already at minimum" signal and both step
outcomes remain non-negative multiples of 5. -/
theorem C4_step_invariant_witness :
    (Quacker.processFeed (5 - 5) c4feed).newCount = max 0 (5 - 5) ∧
      ((Quacker.processFeed (5 - 5) c4feed).alreadyMin = true ↔ (5 : Int) = 0) ∧
      (0 ≤ (Quacker.processFeed (5 - 5) c4feed).newCount ∧
        5 ∣ (Quacker.processFeed (5 - 5) c4feed).newCount ∧
        (Quacker.processFeed (5 - 5) c4feed).newCount ≤ (c4feed.length : Int) + 4) ∧
      (0 ≤ (Quacker.processFeed (5 + 5) c4feed).newCount ∧
        5 ∣ (Quacker.processFeed (5 + 5) c4feed).newCount ∧
        (Quacker.processFeed (5 + 5) c4feed).newCount ≤ (c4feed.length : Int) + 4) :=
  C4_step_invariant 5 c4feed (by norm_num) (by norm_num) (by norm_num [c4feed])

/-- C5: the claim states that `allocate()` returns the smallest
non-negative integer not among the existing ids.  This fails at the
claim's own example `S = {}`: the scan starts at candidate 1 and returns
1, yet the smallest non-negative integer absent from `{}` is 0. -/
theorem C5_counterexample_empty_set :
    Pond.get_unique_user_id [] [] = 1 ∧
      ¬ Pond.IsLeastNonNegAbsent (Pond.get_unique_user_id [] []) [] := by
  have h : Pond.get_unique_user_id [] [] = 1 := by decide
  refine ⟨h, ?_⟩
  rw [h]
  rintro ⟨-, -, hleast⟩
  have := hleast 0 (le_refl 0) (by simp)
  omega

/-- C5 (amended): for existing non-negative identifiers listed in
ascending order (fewer than `2^31 - 1` of them, so that the `int32_t`
candidate cannot overflow), `Pond::get_unique_user_id` returns the
smallest **positive** integer not among them. -/
theorem C5_allocator_least_positive_absent (S neg : List Int)
    (hsorted : S.Sorted (· ≤ ·)) (hnonneg : ∀ x ∈ S, 0 ≤ x)
    (hlen : (S.length : Int) < 2 ^ 31 - 1) :
    Pond.IsLeastPosAbsent (Pond.get_unique_user_id S neg) S := by
  rw [Pond.get_unique_user_id_eq_posScan]
  obtain ⟨h1, h2, h3⟩ := Pond.posScan_sorted_least S 1 hsorted (le_refl 1) (by omega)
  exact ⟨h1, h2, fun m hm1 hm2 => h3 m hm1 hm2⟩

/-- C5 witness: on existing ids `{1, 2, 4}` the allocator yields the
smallest positive absent id (namely 3). -/
theorem C5_allocator_witness :
    Pond.IsLeastPosAbsent (Pond.get_unique_user_id [1, 2, 4] []) [1, 2, 4] :=
  C5_allocator_least_positive_absent [1, 2, 4] [] (by decide) (by decide) (by decide)

/-- C6: the claim states that once the non-negative range is fully dense
up to `INT32_MAX`, allocation switches to the negative pool, gap-scanning
downward from `-1`.  In the code this can never happen: the guard
`unique_id > INT32_MAX` compares an `int32_t` against its own maximum,
so the negative-pool branch is dead code; on the fully dense input the
candidate instead wraps around to `-2^31` and that wrapped value is
returned directly, while the claimed negative gap-scan would have
produced `-1` on an empty negative pool. -/
theorem C6_negative_pool_unreachable :
    (∀ pos neg : List Int,
        Pond.get_unique_user_id pos neg = (Pond.posScan 1 pos).1) ∧
      Pond.get_unique_user_id (Pond.intRange 1 (2 ^ 31 - 1)) [] = -(2 ^ 31) ∧
      Pond.negScan (-1) [] = -1 ∧ (-(2 ^ 31) : Int) ≠ -1 := by
  refine ⟨Pond.get_unique_user_id_eq_posScan, ?_, by decide, by decide⟩
  rw [Pond.get_unique_user_id_eq_posScan]
  have hm : (2 ^ 31 - 1 : Nat) = (2 ^ 31 - 2) + 1 := by norm_num
  rw [hm, Pond.posScan_intRange (2 ^ 31 - 2) 1 (by norm_num) (by norm_num)]
  have hval : (1 : Int) + ((2 ^ 31 - 2 + 1 : Nat) : Int) = 2 ^ 31 := by norm_num
  rw [hval]
  unfold Pond.wrap32
  decide

/-- C7: the claim states that a re-share's feed entry carries both
`eventDate` and `eventTime` from the re-share's own timestamp, not the
original post's.  In the code the SELECT takes `r.rdate AS date` but
`t2.ttime AS time`: the re-share row stores no time at all, and the
entry's time is the original tweet's `ttime` — here `"09:00:00"`, which
differs from the re-share's only timestamp `"2024-02-02"`. -/
theorem C7_counterexample_repost_time :
    Pond.getFeedRows c7db 9 = [c7row] ∧
      (∀ t ∈ c7db.tweets, c7row.time = t.ttime) ∧
      (∀ r ∈ c7db.retweets, c7row.date = r.rdate ∧ c7row.time ≠ r.rdate) := by
  decide

/-- C7 (amended): every re-share feed entry carries the underlying
post's text, the re-sharer's identity and display name, the `eventDate`
from the re-share's own `rdate`, and the `eventTime` from the original
post's `ttime` (re-shares store no time of their own). -/
theorem C7_repost_fields (db : Pond.DB) (uid : Int) (x : Pond.FeedRow)
    (hx : x ∈ Pond.retweetRows db uid) :
    ∃ r ∈ db.retweets, ∃ t ∈ db.tweets, ∃ u ∈ db.users,
      t.tid = r.tid ∧ r.retweeter_id = u.usr ∧
      x.text = t.text ∧ x.writer_id = r.retweeter_id ∧ x.name = u.name ∧
      x.date = r.rdate ∧ x.time = t.ttime := by
  rcases Pond.mem_retweetRows_iff.mp hx with
    ⟨r, hr, t, ht, f, hf, u, hu, ⟨h1, h2, h3, h4, h5⟩, rfl⟩
  exact ⟨r, hr, t, ht, u, hu, h1, h4, rfl, rfl, rfl, rfl, rfl⟩

/-- C7 witness: the fields of the single re-share entry of `c7db`. -/
theorem C7_repost_fields_witness :
    ∃ r ∈ c7db.retweets, ∃ t ∈ c7db.tweets, ∃ u ∈ c7db.users,
      t.tid = r.tid ∧ r.retweeter_id = u.usr ∧
      c7row.text = t.text ∧ c7row.writer_id = r.retweeter_id ∧ c7row.name = u.name ∧
      c7row.date = r.rdate ∧ c7row.time = t.ttime :=
  C7_repost_fields c7db 9 c7row (by decide)

/-- C8: for every viewer the feed is totally ordered by
`(eventDate, eventTime)` descending, its entries all come from the
concatenation of the post stream and the re-share stream, and on the
concrete streams with timestamps `(d2, t1)` and `(d3, t1)` (`d3` later)
the `d3` entry precedes the `d2` entry. -/
theorem C8_feed_sorted_descending :
    (∀ (db : Pond.DB) (uid : Int),
        (Pond.getFeedRows db uid).Sorted Pond.feedGE ∧
          ∀ x ∈ Pond.getFeedRows db uid,
            x ∈ Pond.tweetRows db uid ++ Pond.retweetRows db uid) ∧
      Pond.getFeedRows c8db 9 = [c8entryD3, c8entryD2] := by
  refine ⟨fun db uid => ⟨Pond.sortFeed_sorted _, fun x hx => Pond.mem_getFeedRows_sub hx⟩, ?_⟩
  decide

/-- C8 witness: the d2 entry of the concrete feed indeed stems from the
concatenation of the two streams. -/
theorem C8_feed_sorted_witness :
    c8entryD2 ∈ Pond.tweetRows c8db 9 ++ Pond.retweetRows c8db 9 :=
  (C8_feed_sorted_descending.1 c8db 9).2 c8entryD2 (by decide)

/-- C9: a re-share entry can only enter a feed through the retweet arm
of the query, whose WHERE clause requires `r.spam = 0`: every `retweet`
row of every built feed originates from a stored re-share whose spam
flag is 0. -/
theorem C9_spam_excluded (db : Pond.DB) (uid : Int) (x : Pond.FeedRow)
    (hx : x ∈ Pond.getFeedRows db uid) (htyp : x.typ = "retweet") :
    ∃ r ∈ db.retweets, r.spam = 0 ∧ x.tid = r.tid ∧
      x.writer_id = r.retweeter_id ∧ x.date = r.rdate := by
  rcases List.mem_append.mp (Pond.mem_getFeedRows_sub hx) with h | h
  · have := Pond.typ_of_mem_tweetRows h
    rw [htyp] at this
    exact absurd this (by decide)
  · rcases Pond.mem_retweetRows_iff.mp h with
      ⟨r, hr, t, ht, f, hf, u, hu, ⟨h1, h2, h3, h4, h5⟩, rfl⟩
    exact ⟨r, hr, h5, h1, rfl, rfl⟩

/-- C9 witness: the single re-share entry of `c9db` originates from its
stored retweet row with spam flag 0. -/
theorem C9_spam_excluded_witness :
    ∃ r ∈ c9db.retweets, r.spam = 0 ∧ c9row.tid = r.tid ∧
      c9row.writer_id = r.retweeter_id ∧ c9row.date = r.rdate :=
  C9_spam_excluded c9db 9 c9row (by decide) (by decide)

/-- C10: both timestamp formatters pass `sizeof(char*) = 8` as the
`strftime` limit although `"HH:MM:SS"` needs 9 bytes and `"YYYY-MM-DD"`
needs 11 bytes including the terminator, so on every call neither helper
produces a string in its documented format, and the timestamp columns
bound by `Pond::addPost` and `Pond::follow` inherit the failure. -/
theorem C10_strftime_size_too_small (t : Pond.Tm) :
    (Pond.timeFormat t).length + 1 = 9 ∧
      (Pond.dateFormat t).length + 1 = 11 ∧
      Pond.sizeof_char_ptr = 8 ∧
      Pond._getTime t = none ∧
      Pond._getDate t = none ∧
      Pond.addPost_timestamp t = (none, none) ∧
      Pond.follow_start_date t = none :=
  ⟨rfl, rfl, rfl, rfl, rfl, rfl, rfl⟩
